import Mathlib

/-!
Shallow embedding of `src/vector.c` / `src/vector.h`: a type-erased, growable
contiguous array over opaque fixed-size byte elements.

Modelling choices:
* The backing store (`struct Vector`'s `value` buffer) is a total function
  `Nat → Nat` from byte offset to byte value.  `memcpy`/`memmove` become
  `writeBytes` (which reads its whole source list first, matching
  `memmove`'s defined overlap semantics), and reads become `readBytes`.
* `malloc`/`realloc` success is an explicit `allocOk : Bool` oracle argument;
  `realloc` preserves buffer contents (its C contract), so on the function
  representation it is the identity on `value`.
* The destructor function pointer is modelled by a presence flag
  (`destructor : Bool`) together with, for each operation, the list of byte
  offsets the operation passes to the destructor, in call order.
* Fallible operations return their C result (`NULL`-able pointer as
  `Option Nat` byte offset, `bool` as `Bool`); operations that can fail to
  allocate take the `allocOk` oracle.
-/

/-- One byte read: the `n` bytes of `buf` starting at byte offset `off`. -/
def readBytes (buf : Nat → Nat) (off : Nat) : Nat → List Nat
  | 0 => []
  | n + 1 => buf off :: readBytes buf (off + 1) n

/-- `memcpy`/`memmove`: overwrite the `n` bytes at offset `off` with the bytes
of `src` (a list, read in full before any write, which is exactly `memmove`'s
semantics for overlapping regions). -/
def writeBytes (buf : Nat → Nat) (off : Nat) (src : List Nat) (n : Nat) : Nat → Nat :=
  fun k => if off ≤ k ∧ k < off + n then src.getD (k - off) 0 else buf k

/-- `struct Vector` from `src/vector.c`: byte buffer, element size, live
element count, capacity in elements, and destructor presence. -/
structure Vector where
  value : Nat → Nat
  elem_size : Nat
  elem_count : Nat
  capacity : Nat
  destructor : Bool

/-- The byte block of the element stored at index `i`. -/
def elemBytes (vec : Vector) (i : Nat) : List Nat :=
  readBytes vec.value (i * vec.elem_size) vec.elem_size

/-- All live elements' byte blocks, in index order `0..elem_count-1`. -/
def readElems (vec : Vector) : List (List Nat) :=
  (List.range vec.elem_count).map (fun i => elemBytes vec i)

/-- The byte offsets visited by the destructor loop
`for (ptr = value; ptr < value + elem_count*elem_size; ptr += elem_size)`
in `vector_cleanup`/`vector_clear`: for `elem_size > 0` the body runs exactly
`elem_count` times, at offsets `0, elem_size, ..., (elem_count-1)*elem_size`,
i.e. once per live element in index order. -/
def destructorSweep (elem_count elem_size : Nat) : List Nat :=
  (List.range elem_count).map (fun i => i * elem_size)

/-- `vector_init`: coerces capacity `0` to `1`, starts empty; `none` models
the `NULL` return when either `malloc` fails. -/
def vector_init (capacity elem_size : Nat) (destructor : Bool) (allocOk : Bool) :
    Option Vector :=
  if allocOk then
    some { value := fun _ => 0
           elem_size := elem_size
           elem_count := 0
           capacity := if capacity = 0 then 1 else capacity
           destructor := destructor }
  else none

/-- `vector_cleanup` (a.k.a. destroy): returns the destructor-call offsets
(the state itself is freed). -/
def vector_cleanup (vec : Vector) : List Nat :=
  if vec.destructor then destructorSweep vec.elem_count vec.elem_size else []

/-- `vector_reset`: size to zero, no destructor calls, capacity kept.
Result: (new state, destructor-call offsets). -/
def vector_reset (vec : Vector) : Vector × List Nat :=
  ({ vec with elem_count := 0 }, [])

/-- `vector_clear`: destructor sweep over live elements, then reset.
Result: (new state, destructor-call offsets). -/
def vector_clear (vec : Vector) : Vector × List Nat :=
  ((vector_reset vec).1,
   if vec.destructor then destructorSweep vec.elem_count vec.elem_size else [])

/-- `vector_reserve`: no-op returning `false` when the requested capacity is
not larger; otherwise reallocates (contents preserved) when `allocOk`.
Result: (state, returned bool, destructor-call offsets). -/
def vector_reserve (vec : Vector) (capacity : Nat) (allocOk : Bool) :
    Vector × Bool × List Nat :=
  if capacity ≤ vec.capacity then (vec, false, [])
  else if allocOk then ({ vec with capacity := capacity }, true, [])
  else (vec, false, [])

/-- `vector_shrink_to_fit`: reallocates down to `elem_count` slots when
`elem_count < capacity` and the `realloc` succeeds.
Result: (state, returned bool, destructor-call offsets). -/
def vector_shrink_to_fit (vec : Vector) (allocOk : Bool) :
    Vector × Bool × List Nat :=
  if vec.elem_count < vec.capacity then
    if allocOk then ({ vec with capacity := vec.elem_count }, true, [])
    else (vec, false, [])
  else (vec, false, [])

/-- `vector_push_back`: grow by doubling via `vector_reserve` when full, then
`memcpy` the element into slot `elem_count` and increment the count; returns
the byte offset of the stored slot, or `none` on growth failure.
Result: (state, returned pointer offset, destructor-call offsets). -/
def vector_push_back (vec : Vector) (elem : List Nat) (allocOk : Bool) :
    Vector × Option Nat × List Nat :=
  if vec.capacity ≤ vec.elem_count then
    match vector_reserve vec (vec.capacity * 2) allocOk with
    | (_, false, _) => (vec, none, [])
    | (v, true, _) =>
      ({ v with value := writeBytes v.value (v.elem_count * v.elem_size) elem v.elem_size,
                elem_count := v.elem_count + 1 },
       some ((v.elem_count + 1 - 1) * v.elem_size), [])
  else
    ({ vec with value := writeBytes vec.value (vec.elem_count * vec.elem_size) elem vec.elem_size,
                elem_count := vec.elem_count + 1 },
     some ((vec.elem_count + 1 - 1) * vec.elem_size), [])

/-- `vector_pop_back`: decrement the count, copy out the bytes at the new
count; no destructor call; always returns `true` (the precondition
`elem_count > 0` is an assert in the C code).
Result: (state, copied-out bytes, returned bool, destructor-call offsets). -/
def vector_pop_back (vec : Vector) : Vector × List Nat × Bool × List Nat :=
  ({ vec with elem_count := vec.elem_count - 1 },
   readBytes vec.value ((vec.elem_count - 1) * vec.elem_size) vec.elem_size,
   true, [])

/-- `vector_at`: byte offset of element `idx` (precondition `idx < elem_count`
is an assert). -/
def vector_at (vec : Vector) (idx : Nat) : Nat :=
  idx * vec.elem_size

/-- `vector_insert`: grow by doubling when full, `memmove` the tail
`[at, elem_count)` one slot right, `memcpy` the new element into slot `at`,
increment the count.  Result: (state, returned bool, destructor-call offsets). -/
def vector_insert (vec : Vector) (at_ : Nat) (src : List Nat) (allocOk : Bool) :
    Vector × Bool × List Nat :=
  if vec.capacity ≤ vec.elem_count then
    match vector_reserve vec (vec.capacity * 2) allocOk with
    | (_, false, _) => (vec, false, [])
    | (v, true, _) =>
      let moved := writeBytes v.value ((at_ + 1) * v.elem_size)
        (readBytes v.value (at_ * v.elem_size) ((v.elem_count - at_) * v.elem_size))
        ((v.elem_count - at_) * v.elem_size)
      ({ v with value := writeBytes moved (at_ * v.elem_size) src v.elem_size,
                elem_count := v.elem_count + 1 },
       true, [])
  else
    let moved := writeBytes vec.value ((at_ + 1) * vec.elem_size)
      (readBytes vec.value (at_ * vec.elem_size) ((vec.elem_count - at_) * vec.elem_size))
      ((vec.elem_count - at_) * vec.elem_size)
    ({ vec with value := writeBytes moved (at_ * vec.elem_size) src vec.elem_size,
                elem_count := vec.elem_count + 1 },
     true, [])

/-- `vector_erase`: destructor call on the element at `at` (when set),
`memmove` the tail `(at, elem_count)` one slot left, decrement the count;
always returns `true`.  Result: (state, returned bool, destructor-call offsets). -/
def vector_erase (vec : Vector) (at_ : Nat) : Vector × Bool × List Nat :=
  let moved := writeBytes vec.value (at_ * vec.elem_size)
    (readBytes vec.value ((at_ + 1) * vec.elem_size)
      ((vec.elem_count - at_ - 1) * vec.elem_size))
    ((vec.elem_count - at_ - 1) * vec.elem_size)
  ({ vec with value := moved, elem_count := vec.elem_count - 1 },
   true, if vec.destructor then [at_ * vec.elem_size] else [])

/-- `vector_size`. -/
def vector_size (vec : Vector) : Nat := vec.elem_count

/-- `vector_capacity`. -/
def vector_capacity (vec : Vector) : Nat := vec.capacity

/-- `vector_is_empty`. -/
def vector_is_empty (vec : Vector) : Bool := vec.elem_count = 0

/-- `vector_clone`: fresh storage of exactly `elem_count` slots, contents
bulk-copied, `capacity = elem_count`, same element size and destructor; no
destructor invocation.  Result: (new array or `none`, destructor-call offsets). -/
def vector_clone (vec : Vector) (allocOk : Bool) : Option Vector × List Nat :=
  if allocOk then
    (some { value :=
              writeBytes (fun _ => 0) 0
                (readBytes vec.value 0 (vec.elem_count * vec.elem_size))
                (vec.elem_count * vec.elem_size)
            elem_size := vec.elem_size
            elem_count := vec.elem_count
            capacity := vec.elem_count
            destructor := vec.destructor },
     [])
  else (none, [])

/-- Modelled from the spec: the reference sequence simulation's insert —
"Shifts all elements in `[index, length)` one slot to the right (order
preserved), writes the new element's bytes into slot `index`". -/
def insertAt {α : Type} (l : List α) (i : Nat) (x : α) : List α :=
  l.take i ++ [x] ++ l.drop i

/-- Modelled from the spec: the reference sequence simulation's erase —
"Shifts all elements in `(index, length)` one slot left, decrements
`length`". -/
def eraseAt {α : Type} (l : List α) (i : Nat) : List α :=
  l.take i ++ l.drop (i + 1)

/-- A mutating operation from the order-preservation property's alphabet. -/
inductive Op where
  | push_back (x : List Nat)
  | insert (i : Nat) (x : List Nat)
  | erase (i : Nat)

/-- Replay one operation on the C array (allocations succeed). -/
def runOp (vec : Vector) : Op → Vector
  | Op.push_back x => (vector_push_back vec x true).1
  | Op.insert i x => (vector_insert vec i x true).1
  | Op.erase i => (vector_erase vec i).1

/-- Replay a whole operation sequence on the C array. -/
def runOps (vec : Vector) (ops : List Op) : Vector :=
  ops.foldl runOp vec

/-- Modelled from the spec: replay one operation on the reference ordered
list ("model the array as an ordered list and replay identical operations"). -/
def modelOp (l : List (List Nat)) : Op → List (List Nat)
  | Op.push_back x => l ++ [x]
  | Op.insert i x => insertAt l i x
  | Op.erase i => eraseAt l i

/-- Replay a whole operation sequence on the reference ordered list. -/
def modelRun (l : List (List Nat)) (ops : List Op) : List (List Nat) :=
  ops.foldl modelOp l

/-- Validity of an operation sequence against the C preconditions, tracking
the running length: pushed/inserted blocks have the element size, insert
indices are `≤` the current length, erase indices are `<` it. -/
def opsValid (es : Nat) : Nat → List Op → Prop
  | _, [] => True
  | n, Op.push_back x :: rest => x.length = es ∧ opsValid es (n + 1) rest
  | n, Op.insert i x :: rest => i ≤ n ∧ x.length = es ∧ opsValid es (n + 1) rest
  | n, Op.erase i :: rest => i < n ∧ opsValid es (n - 1) rest

/-- A freshly created empty array of byte-sized elements, capacity 1
(`vector_init 1 1 false true`). -/
def vecEmpty1 : Vector :=
  { value := fun _ => 0, elem_size := 1, elem_count := 0, capacity := 1,
    destructor := false }

/-- A one-element array with a destructor set, obtained by pushing `[7]`
onto a fresh destructor-carrying array. -/
def vecD1 : Vector :=
  (vector_push_back
    { value := fun _ => 0, elem_size := 1, elem_count := 0, capacity := 1,
      destructor := true } [7] true).1

/-- A concrete two-element array (`elem_size` 2, elements `[10,11]` and
`[12,13]`, one spare slot, destructor set) used to instantiate theorems. -/
def vecTwo : Vector :=
  { value := fun k => k + 10, elem_size := 2, elem_count := 2, capacity := 3,
    destructor := true }

/-- The same two-element array without a destructor. -/
def vecTwoF : Vector :=
  { value := fun k => k + 10, elem_size := 2, elem_count := 2, capacity := 3,
    destructor := false }

/-- A fresh empty array with capacity 2 (`vector_init 2 1 false true`). -/
def vecEmpty2 : Vector :=
  { value := fun _ => 0, elem_size := 1, elem_count := 0, capacity := 2,
    destructor := false }

/-- A concrete operation sequence exercising push, insert and erase. -/
def opsDemo : List Op :=
  [Op.push_back [5], Op.push_back [6], Op.insert 1 [7], Op.erase 0]

/-- A concrete full array (length = capacity = 1), so the next push or
insert must attempt to grow. -/
def vecFull1 : Vector :=
  { value := fun k => k + 10, elem_size := 1, elem_count := 1, capacity := 1,
    destructor := false }

/-- A fresh empty array of 4-byte elements created with initial capacity 0
(`vector_init 0 4 false true`), whose capacity was coerced to 1. -/
def vecES4 : Vector :=
  { value := fun _ => 0, elem_size := 4, elem_count := 0, capacity := 1,
    destructor := false }

/-! ### Byte-buffer lemmas -/

theorem readBytes_length (buf : Nat → Nat) (off n : Nat) :
    (readBytes buf off n).length = n := by
  induction n generalizing off with
  | zero => rfl
  | succ n ih => simp [readBytes, ih]

theorem readBytes_congr {buf buf2 : Nat → Nat} {off off2 n : Nat}
    (h : ∀ k, k < n → buf (off + k) = buf2 (off2 + k)) :
    readBytes buf off n = readBytes buf2 off2 n := by
  induction n generalizing off off2 with
  | zero => rfl
  | succ n ih =>
    simp only [readBytes]
    refine congrArg₂ _ ?_ (ih ?_)
    · simpa using h 0 (Nat.succ_pos n)
    · intro k hk
      have := h (k + 1) (by omega)
      simpa [Nat.add_assoc, Nat.add_comm 1 k] using this

theorem readBytes_getD {buf : Nat → Nat} {off n m : Nat} (h : m < n) :
    (readBytes buf off n).getD m 0 = buf (off + m) := by
  induction n generalizing off m with
  | zero => omega
  | succ n ih =>
    cases m with
    | zero => simp [readBytes]
    | succ m =>
      have := @ih (off + 1) m (by omega)
      simpa [readBytes, Nat.add_assoc, Nat.add_comm 1 m] using this

theorem readBytes_eq_of_getD {buf : Nat → Nat} {off : Nat} (src : List Nat)
    (h : ∀ k, k < src.length → buf (off + k) = src.getD k 0) :
    readBytes buf off src.length = src := by
  induction src generalizing off with
  | nil => rfl
  | cons a t ih =>
    simp only [List.length_cons, readBytes]
    refine congrArg₂ _ ?_ (ih ?_)
    · simpa using h 0 (by simp)
    · intro k hk
      have := h (k + 1) (by simpa using Nat.succ_lt_succ hk)
      simpa [Nat.add_assoc, Nat.add_comm 1 k] using this

theorem writeBytes_zero (buf : Nat → Nat) (off : Nat) (src : List Nat) :
    writeBytes buf off src 0 = buf := by
  funext k
  simp only [writeBytes]
  have : ¬(off ≤ k ∧ k < off + 0) := by omega
  simp [this]

theorem readBytes_writeBytes_self {buf : Nat → Nat} {off n : Nat} {src : List Nat}
    (h : src.length = n) :
    readBytes (writeBytes buf off src n) off n = src := by
  subst h
  refine readBytes_eq_of_getD src ?_
  intro k hk
  simp only [writeBytes]
  have hc : off ≤ off + k ∧ off + k < off + src.length := by omega
  simp [hc, Nat.add_sub_cancel_left]

theorem readBytes_writeBytes_of_disjoint {buf : Nat → Nat} {off n off2 m : Nat}
    {src : List Nat} (h : off2 + m ≤ off ∨ off + n ≤ off2) :
    readBytes (writeBytes buf off src n) off2 m = readBytes buf off2 m := by
  refine readBytes_congr ?_
  intro k hk
  simp only [writeBytes]
  have : ¬(off ≤ off2 + k ∧ off2 + k < off + n) := by omega
  simp [this]

theorem chunk_lt {j i k es : Nat} (h : j < i) (hk : k < es) :
    j * es + k < i * es := by
  calc j * es + k < j * es + es := by omega
    _ = (j + 1) * es := by ring
    _ ≤ i * es := Nat.mul_le_mul_right es h

theorem chunk_ge (i j k es : Nat) (h : i ≤ j) : i * es ≤ j * es + k :=
  Nat.le_trans (Nat.mul_le_mul_right es h) (Nat.le_add_right _ _)

theorem length_insertAt {α : Type} (l : List α) (i : Nat) (x : α) (h : i ≤ l.length) :
    (insertAt l i x).length = l.length + 1 := by
  simp [insertAt]
  omega

theorem length_eraseAt {α : Type} (l : List α) (i : Nat) (h : i < l.length) :
    (eraseAt l i).length = l.length - 1 := by
  simp [eraseAt]
  omega

theorem getElem_insertAt_lt {α : Type} (l : List α) (i : Nat) (x : α) (j : Nat)
    (hi : i ≤ l.length) (hj : j < i) (h1 : j < (insertAt l i x).length)
    (h2 : j < l.length) :
    (insertAt l i x)[j] = l[j] := by
  have ht : (l.take i).length = i := by simp; omega
  simp only [insertAt]
  rw [List.getElem_append_left (show j < (l.take i ++ [x]).length by simp [ht]; omega)]
  rw [List.getElem_append_left (show j < (l.take i).length by simp [ht]; omega)]
  exact List.getElem_take l

theorem getElem_insertAt_self {α : Type} (l : List α) (i : Nat) (x : α)
    (hi : i ≤ l.length) (h1 : i < (insertAt l i x).length) :
    (insertAt l i x)[i] = x := by
  have ht : (l.take i).length = i := by simp; omega
  simp only [insertAt]
  rw [List.getElem_append_left (show i < (l.take i ++ [x]).length by simp [ht])]
  rw [List.getElem_append_right (show (l.take i).length ≤ i by omega)]
  simp [ht]

theorem getElem_insertAt_gt {α : Type} (l : List α) (i : Nat) (x : α) (j : Nat)
    (hi : i ≤ l.length) (hj : i < j) (h1 : j < (insertAt l i x).length)
    (h2 : j - 1 < l.length) :
    (insertAt l i x)[j] = l[j - 1] := by
  have ht : (l.take i).length = i := by simp; omega
  have hlen : j < (insertAt l i x).length := h1
  rw [length_insertAt l i x hi] at hlen
  simp only [insertAt]
  rw [List.getElem_append_right (show (l.take i ++ [x]).length ≤ j by simp [ht]; omega)]
  rw [List.getElem_drop]
  have h3 : i + (j - (l.take i ++ [x]).length) = j - 1 := by simp [ht]; omega
  simp only [h3]

theorem getElem_eraseAt_lt {α : Type} (l : List α) (i : Nat) (j : Nat)
    (hi : i < l.length) (hj : j < i) (h1 : j < (eraseAt l i).length)
    (h2 : j < l.length) :
    (eraseAt l i)[j] = l[j] := by
  have ht : (l.take i).length = i := by simp; omega
  simp only [eraseAt]
  rw [List.getElem_append_left (show j < (l.take i).length by simp [ht]; omega)]
  exact List.getElem_take l

theorem getElem_eraseAt_ge {α : Type} (l : List α) (i : Nat) (j : Nat)
    (hi : i < l.length) (hj : i ≤ j) (h1 : j < (eraseAt l i).length)
    (h2 : j + 1 < l.length) :
    (eraseAt l i)[j] = l[j + 1] := by
  have ht : (l.take i).length = i := by simp; omega
  simp only [eraseAt]
  rw [List.getElem_append_right (show (l.take i).length ≤ j by omega)]
  rw [List.getElem_drop]
  have h3 : i + 1 + (j - (l.take i).length) = j + 1 := by simp [ht]; omega
  simp only [h3]

theorem readBytes_writeBytes_move {buf : Nat → Nat} {src_off dst off2 m M : Nat}
    (h1 : dst ≤ off2) (h2 : off2 + m ≤ dst + M) :
    readBytes (writeBytes buf dst (readBytes buf src_off M) M) off2 m
      = readBytes buf (src_off + (off2 - dst)) m := by
  apply readBytes_congr
  intro k hk
  simp only [writeBytes]
  have hc : dst ≤ off2 + k ∧ off2 + k < dst + M := by omega
  rw [if_pos hc]
  rw [readBytes_getD (show off2 + k - dst < M by omega)]
  congr 1
  omega

theorem push_chunks (buf : Nat → Nat) (x : List Nat) (n es : Nat) (hx : x.length = es) :
    (List.range (n + 1)).map (fun j => readBytes (writeBytes buf (n * es) x es) (j * es) es)
      = (List.range n).map (fun j => readBytes buf (j * es) es) ++ [x] := by
  rw [List.range_succ, List.map_append]
  congr 1
  · apply List.map_congr_left
    intro j hj
    have hj1 : j < n := List.mem_range.mp hj
    apply readBytes_writeBytes_of_disjoint
    left
    calc j * es + es = (j + 1) * es := by ring
      _ ≤ n * es := Nat.mul_le_mul_right es (by omega)
  · simpa using readBytes_writeBytes_self hx

theorem insert_chunks (buf : Nat → Nat) (x : List Nat) (i n es : Nat)
    (hx : x.length = es) (hi : i ≤ n) :
    (List.range (n + 1)).map (fun j =>
        readBytes
          (writeBytes
            (writeBytes buf ((i + 1) * es)
              (readBytes buf (i * es) ((n - i) * es)) ((n - i) * es))
            (i * es) x es)
          (j * es) es)
      = insertAt ((List.range n).map (fun j => readBytes buf (j * es) es)) i x := by
  have hllen : ((List.range n).map (fun j => readBytes buf (j * es) es)).length = n := by
    simp
  apply List.ext_getElem
  · rw [length_insertAt _ _ _ (by omega)]
    simp [hllen]
  intro j hj1 hj2
  have hjn : j < n + 1 := by simpa using hj1
  simp only [List.getElem_map, List.getElem_range]
  rcases Nat.lt_trichotomy j i with h | h | h
  · rw [getElem_insertAt_lt _ i x j (by omega) h hj2 (by simp; omega)]
    simp only [List.getElem_map, List.getElem_range]
    rw [readBytes_writeBytes_of_disjoint (Or.inl (by
      calc j * es + es = (j + 1) * es := by ring
        _ ≤ i * es := Nat.mul_le_mul_right es (by omega)))]
    rw [readBytes_writeBytes_of_disjoint (Or.inl (by
      calc j * es + es = (j + 1) * es := by ring
        _ ≤ (i + 1) * es := Nat.mul_le_mul_right es (by omega)))]
  · subst h
    rw [getElem_insertAt_self _ j x (by omega) hj2]
    exact readBytes_writeBytes_self hx
  · rw [getElem_insertAt_gt _ i x j (by omega) h hj2 (by simp; omega)]
    simp only [List.getElem_map, List.getElem_range]
    rw [readBytes_writeBytes_of_disjoint (Or.inr (by
      calc i * es + es = (i + 1) * es := by ring
        _ ≤ j * es := Nat.mul_le_mul_right es (by omega)))]
    rw [readBytes_writeBytes_move
      (show (i + 1) * es ≤ j * es from Nat.mul_le_mul_right es (by omega))
      (by
        have e1 : (j + 1) * es ≤ (n + 1) * es := Nat.mul_le_mul_right es (by omega)
        have e2 : (i + 1) * es + (n - i) * es = (n + 1) * es := by
          rw [← Nat.add_mul]
          congr 1
          omega
        have e3 : (j + 1) * es = j * es + es := by ring
        omega)]
    congr 1
    have e4 : j * es - (i + 1) * es = (j - (i + 1)) * es := (Nat.sub_mul _ _ _).symm
    rw [e4, ← Nat.add_mul]
    congr 1
    omega

theorem erase_chunks (buf : Nat → Nat) (i n es : Nat) (hi : i < n) :
    (List.range (n - 1)).map (fun j =>
        readBytes
          (writeBytes buf (i * es)
            (readBytes buf ((i + 1) * es) ((n - i - 1) * es)) ((n - i - 1) * es))
          (j * es) es)
      = eraseAt ((List.range n).map (fun j => readBytes buf (j * es) es)) i := by
  have hllen : ((List.range n).map (fun j => readBytes buf (j * es) es)).length = n := by
    simp
  apply List.ext_getElem
  · rw [length_eraseAt _ _ (by simp; omega)]
    simp [hllen]
  intro j hj1 hj2
  have hjn : j < n - 1 := by simpa using hj1
  simp only [List.getElem_map, List.getElem_range]
  rcases Nat.lt_or_ge j i with h | h
  · rw [getElem_eraseAt_lt _ i j (by omega) h hj2 (by simp; omega)]
    simp only [List.getElem_map, List.getElem_range]
    rw [readBytes_writeBytes_of_disjoint (Or.inl (by
      calc j * es + es = (j + 1) * es := by ring
        _ ≤ i * es := Nat.mul_le_mul_right es (by omega)))]
  · rw [getElem_eraseAt_ge _ i j (by omega) h hj2 (by simp; omega)]
    simp only [List.getElem_map, List.getElem_range]
    rw [readBytes_writeBytes_move
      (show i * es ≤ j * es from Nat.mul_le_mul_right es h)
      (by
        have e1 : (j + 1) * es ≤ (n - 1) * es := Nat.mul_le_mul_right es (by omega)
        have e2 : i * es + (n - i - 1) * es = (n - 1) * es := by
          rw [← Nat.add_mul]
          congr 1
          omega
        have e3 : (j + 1) * es = j * es + es := by ring
        omega)]
    congr 1
    have e4 : j * es - i * es = (j - i) * es := (Nat.sub_mul _ _ _).symm
    rw [e4, ← Nat.add_mul]
    congr 1
    omega

theorem length_readElems (vec : Vector) : (readElems vec).length = vec.elem_count := by
  simp [readElems]

theorem vector_reserve_grow (vec : Vector) (c : Nat) (h : vec.capacity < c) :
    vector_reserve vec c true = ({ vec with capacity := c }, true, []) := by
  simp [vector_reserve, show ¬(c ≤ vec.capacity) by omega]

theorem push_back_ok (vec : Vector) (x : List Nat) (hx : x.length = vec.elem_size)
    (hcap : 1 ≤ vec.capacity) (hle : vec.elem_count ≤ vec.capacity) :
    readElems (vector_push_back vec x true).1 = readElems vec ++ [x]
  ∧ (vector_push_back vec x true).1.elem_size = vec.elem_size
  ∧ (vector_push_back vec x true).1.elem_count = vec.elem_count + 1
  ∧ 1 ≤ (vector_push_back vec x true).1.capacity
  ∧ (vector_push_back vec x true).1.elem_count ≤ (vector_push_back vec x true).1.capacity
  ∧ (vector_push_back vec x true).2.1.isSome = true := by
  by_cases hg : vec.capacity ≤ vec.elem_count
  all_goals refine ⟨?_, ?_, ?_, ?_, ?_, ?_⟩
  case pos.refine_1 =>
    have hgrow : vec.capacity < vec.capacity * 2 := by omega
    simp only [vector_push_back, if_pos hg, vector_reserve_grow vec _ hgrow]
    simp only [readElems, elemBytes]
    exact push_chunks vec.value x vec.elem_count vec.elem_size hx
  case neg.refine_1 =>
    simp only [vector_push_back, if_neg hg]
    simp only [readElems, elemBytes]
    exact push_chunks vec.value x vec.elem_count vec.elem_size hx
  all_goals
    have hgrow : vec.capacity < vec.capacity * 2 := by omega
    simp only [vector_push_back, vector_reserve_grow vec _ hgrow]
    split
    all_goals simp
    all_goals omega

theorem insert_ok (vec : Vector) (i : Nat) (x : List Nat)
    (hx : x.length = vec.elem_size) (hi : i ≤ vec.elem_count)
    (hcap : 1 ≤ vec.capacity) (hle : vec.elem_count ≤ vec.capacity) :
    readElems (vector_insert vec i x true).1 = insertAt (readElems vec) i x
  ∧ (vector_insert vec i x true).1.elem_size = vec.elem_size
  ∧ (vector_insert vec i x true).1.elem_count = vec.elem_count + 1
  ∧ 1 ≤ (vector_insert vec i x true).1.capacity
  ∧ (vector_insert vec i x true).1.elem_count ≤ (vector_insert vec i x true).1.capacity
  ∧ (vector_insert vec i x true).2.1 = true := by
  by_cases hg : vec.capacity ≤ vec.elem_count
  all_goals refine ⟨?_, ?_, ?_, ?_, ?_, ?_⟩
  case pos.refine_1 =>
    have hgrow : vec.capacity < vec.capacity * 2 := by omega
    simp only [vector_insert, if_pos hg, vector_reserve_grow vec _ hgrow]
    simp only [readElems, elemBytes]
    exact insert_chunks vec.value x i vec.elem_count vec.elem_size hx hi
  case neg.refine_1 =>
    simp only [vector_insert, if_neg hg]
    simp only [readElems, elemBytes]
    exact insert_chunks vec.value x i vec.elem_count vec.elem_size hx hi
  all_goals
    have hgrow : vec.capacity < vec.capacity * 2 := by omega
    simp only [vector_insert, vector_reserve_grow vec _ hgrow]
    split
    all_goals simp
    all_goals omega

theorem erase_ok (vec : Vector) (i : Nat) (hi : i < vec.elem_count) :
    readElems (vector_erase vec i).1 = eraseAt (readElems vec) i
  ∧ (vector_erase vec i).1.elem_size = vec.elem_size
  ∧ (vector_erase vec i).1.elem_count = vec.elem_count - 1
  ∧ (vector_erase vec i).1.capacity = vec.capacity := by
  refine ⟨?_, rfl, rfl, rfl⟩
  simp only [vector_erase, readElems, elemBytes]
  exact erase_chunks vec.value i vec.elem_count vec.elem_size hi

theorem runOps_refines (ops : List Op) : ∀ (vec : Vector),
    vec.elem_count ≤ vec.capacity → 1 ≤ vec.capacity →
    opsValid vec.elem_size vec.elem_count ops →
    readElems (runOps vec ops) = modelRun (readElems vec) ops := by
  induction ops with
  | nil => intro vec _ _ _; rfl
  | cons op rest ih =>
    intro vec hle hcap hval
    cases op with
    | push_back x =>
      obtain ⟨hx, hrest⟩ := hval
      obtain ⟨h1, h2, h3, h4, h5, -⟩ := push_back_ok vec x hx hcap hle
      calc readElems (runOps vec (Op.push_back x :: rest))
          = readElems (runOps (vector_push_back vec x true).1 rest) := rfl
        _ = modelRun (readElems (vector_push_back vec x true).1) rest :=
            ih _ h5 h4 (by rw [h2, h3]; exact hrest)
        _ = modelRun (readElems vec ++ [x]) rest := by rw [h1]
        _ = modelRun (readElems vec) (Op.push_back x :: rest) := rfl
    | insert i x =>
      obtain ⟨hi, hx, hrest⟩ := hval
      obtain ⟨h1, h2, h3, h4, h5, -⟩ := insert_ok vec i x hx hi hcap hle
      calc readElems (runOps vec (Op.insert i x :: rest))
          = readElems (runOps (vector_insert vec i x true).1 rest) := rfl
        _ = modelRun (readElems (vector_insert vec i x true).1) rest :=
            ih _ h5 h4 (by rw [h2, h3]; exact hrest)
        _ = modelRun (insertAt (readElems vec) i x) rest := by rw [h1]
        _ = modelRun (readElems vec) (Op.insert i x :: rest) := rfl
    | erase i =>
      obtain ⟨hi, hrest⟩ := hval
      obtain ⟨h1, h2, h3, h4⟩ := erase_ok vec i hi
      calc readElems (runOps vec (Op.erase i :: rest))
          = readElems (runOps (vector_erase vec i).1 rest) := rfl
        _ = modelRun (readElems (vector_erase vec i).1) rest :=
            ih _ (by omega) (by omega) (by rw [h2, h3]; exact hrest)
        _ = modelRun (eraseAt (readElems vec) i) rest := by rw [h1]
        _ = modelRun (readElems vec) (Op.erase i :: rest) := rfl

/-- Claim C1: replaying any valid sequence of push_back/insert/erase
operations on a freshly created array yields exactly the element byte-block
sequence of the reference ordered-list simulation. -/
theorem vector_order_preservation (c es : Nat) (d : Bool) (v0 : Vector)
    (ops : List Op) (h0 : vector_init c es d true = some v0)
    (hops : opsValid es 0 ops) :
    readElems (runOps v0 ops) = modelRun [] ops := by
  simp only [vector_init, if_pos, Option.some.injEq] at h0
  subst h0
  have h1 := runOps_refines ops
    { value := fun _ => 0, elem_size := es, elem_count := 0,
      capacity := if c = 0 then 1 else c, destructor := d }
    (by simp) (by by_cases h : c = 0 <;> simp [h] <;> omega) hops
  simpa [readElems] using h1

theorem eraseAt_insertAt {α : Type} (l : List α) (i : Nat) (x : α) (hi : i ≤ l.length) :
    eraseAt (insertAt l i x) i = l := by
  have hA : (l.take i).length = i := by simp; omega
  have hAx : (l.take i ++ [x]).length = i + 1 := by simp [hA]
  have t1 : List.take i (l.take i ++ [x] ++ l.drop i) = l.take i := by
    rw [List.append_assoc]
    exact List.take_left' hA
  have t2 : List.drop (i + 1) (l.take i ++ [x] ++ l.drop i) = l.drop i :=
    List.drop_left' hAx
  simp only [eraseAt, insertAt, t1, t2]
  exact List.take_append_drop i l

theorem reserve_preserves (vec : Vector) (c : Nat) (b : Bool) :
    (vector_reserve vec c b).1.value = vec.value
  ∧ (vector_reserve vec c b).1.elem_count = vec.elem_count
  ∧ (vector_reserve vec c b).1.elem_size = vec.elem_size
  ∧ (vector_reserve vec c b).1.destructor = vec.destructor := by
  rw [vector_reserve]
  split
  · exact ⟨rfl, rfl, rfl, rfl⟩
  · split
    · exact ⟨rfl, rfl, rfl, rfl⟩
    · exact ⟨rfl, rfl, rfl, rfl⟩

theorem reserve_capacity (vec : Vector) (c : Nat) (b : Bool) :
    (vector_reserve vec c b).1.capacity = vec.capacity
  ∨ ((vector_reserve vec c b).1.capacity = c ∧ vec.capacity < c) := by
  rw [vector_reserve]
  split
  · left; rfl
  · split
    · right; exact ⟨rfl, by omega⟩
    · left; rfl

theorem push_back_capacity_cases (vec : Vector) (x : List Nat) (b : Bool) :
    (vector_push_back vec x b).1.capacity = vec.capacity
  ∨ (vector_push_back vec x b).1.capacity = vec.capacity * 2 := by
  rw [vector_push_back]
  split
  · split
    · left; rfl
    · rename_i v snd heq
      have h := reserve_capacity vec (vec.capacity * 2) b
      rw [heq] at h
      simp only at h ⊢
      tauto
  · left; rfl

theorem insert_capacity_cases (vec : Vector) (i : Nat) (x : List Nat) (b : Bool) :
    (vector_insert vec i x b).1.capacity = vec.capacity
  ∨ (vector_insert vec i x b).1.capacity = vec.capacity * 2 := by
  rw [vector_insert]
  split
  · split
    · left; rfl
    · rename_i v snd heq
      have h := reserve_capacity vec (vec.capacity * 2) b
      rw [heq] at h
      simp only at h ⊢
      tauto
  · left; rfl

/-- Claim C2 counterexample: the array `vecEmpty1` is obtained by a successful
create, yet a successful clone of it has capacity 0, and a successful
shrink_to_fit on it leaves capacity 0. -/
theorem vector_capacity_zero_counterexample :
    vector_init 1 1 false true = some vecEmpty1
  ∧ (vector_clone vecEmpty1 true).1.map Vector.capacity = some 0
  ∧ (vector_shrink_to_fit vecEmpty1 true).2.1 = true
  ∧ (vector_shrink_to_fit vecEmpty1 true).1.capacity = 0 := by
  exact ⟨rfl, rfl, rfl, rfl⟩

/-- Claim C2 (amended): capacity is at least 1 after a successful create and
is preserved by push_back, pop_back, insert, erase, reserve, clear and reset;
but shrink_to_fit only guarantees it when the array is non-empty, and a
successful clone's capacity equals the source's length (hence 0 for an empty
source). -/
theorem vector_capacity_positive_amended (c es cr i : Nat) (d binit b : Bool)
    (x : List Nat) (vec v : Vector) (hcap : 1 ≤ vec.capacity)
    (hv : vector_init c es d binit = some v) :
    1 ≤ v.capacity
  ∧ 1 ≤ (vector_push_back vec x b).1.capacity
  ∧ 1 ≤ (vector_pop_back vec).1.capacity
  ∧ 1 ≤ (vector_insert vec i x b).1.capacity
  ∧ 1 ≤ (vector_erase vec i).1.capacity
  ∧ 1 ≤ (vector_reserve vec cr b).1.capacity
  ∧ 1 ≤ (vector_clear vec).1.capacity
  ∧ 1 ≤ (vector_reset vec).1.capacity
  ∧ (1 ≤ vec.elem_count → 1 ≤ (vector_shrink_to_fit vec b).1.capacity)
  ∧ (vector_clone vec b).1.map Vector.capacity
      = (if b then some vec.elem_count else none) := by
  refine ⟨?_, ?_, hcap, ?_, hcap, ?_, hcap, hcap, ?_, ?_⟩
  · cases binit with
    | false => simp [vector_init] at hv
    | true =>
      simp only [vector_init, if_pos, Option.some.injEq] at hv
      subst hv
      simp only
      split <;> omega
  · rcases push_back_capacity_cases vec x b with h | h <;> omega
  · rcases insert_capacity_cases vec i x b with h | h <;> omega
  · rcases reserve_capacity vec cr b with h | ⟨h, h2⟩ <;> omega
  · intro hn
    rw [vector_shrink_to_fit]
    split
    · split
      · simpa using hn
      · exact hcap
    · exact hcap
  · cases b <;> rfl

/-- Claim C3 counterexample: `vecD1` has a destructor set, and erasing its
only element invokes the destructor (on the element at byte offset 0), so the
destructor is not invoked only during clear and destroy. -/
theorem vector_erase_invokes_destructor_counterexample :
    vecD1.destructor = true ∧ (vector_erase vecD1 0).2.2 = [0] := by
  exact ⟨rfl, rfl⟩

/-- Claim C3 (amended): the per-element destructor is invoked only during
clear, destroy and erase: push_back, pop_back, insert, reset, reserve,
shrink_to_fit and clone never invoke it, while erase invokes it exactly on
the erased element when a destructor is set. -/
theorem vector_destructor_only_clear_destroy_erase (vec : Vector) (x : List Nat)
    (i c : Nat) (b : Bool) :
    (vector_push_back vec x b).2.2 = []
  ∧ (vector_pop_back vec).2.2.2 = []
  ∧ (vector_insert vec i x b).2.2 = []
  ∧ (vector_reset vec).2 = []
  ∧ (vector_reserve vec c b).2.2 = []
  ∧ (vector_shrink_to_fit vec b).2.2 = []
  ∧ (vector_clone vec b).2 = []
  ∧ (vector_erase vec i).2.2 = (if vec.destructor then [i * vec.elem_size] else []) := by
  refine ⟨?_, rfl, ?_, rfl, ?_, ?_, ?_, rfl⟩
  · rw [vector_push_back]
    split
    · split <;> rfl
    · rfl
  · rw [vector_insert]
    split
    · split <;> rfl
    · rfl
  · rw [vector_reserve]
    split
    · rfl
    · split <;> rfl
  · rw [vector_shrink_to_fit]
    split
    · split <;> rfl
    · rfl
  · cases b <;> rfl

/-- Claim C4: for every array, when allocation fails (oracle `false`) the
operation reports an explicit failure result and the whole array state
(length, capacity and all stored bytes) is exactly as before: push_back and
insert whenever their growth path is taken (the array is full, the only case
in which they allocate), and reserve, shrink_to_fit and clone always. -/
theorem vector_alloc_failure_no_mutation (vec : Vector) (x : List Nat) (i c : Nat) :
    (vec.capacity ≤ vec.elem_count → vector_push_back vec x false = (vec, none, []))
  ∧ (vec.capacity ≤ vec.elem_count → vector_insert vec i x false = (vec, false, []))
  ∧ vector_reserve vec c false = (vec, false, [])
  ∧ vector_shrink_to_fit vec false = (vec, false, [])
  ∧ vector_clone vec false = (none, []) := by
  have hres : ∀ cc, vector_reserve vec cc false = (vec, false, []) := by
    intro cc
    rw [vector_reserve]
    split
    · rfl
    · rfl
  refine ⟨?_, ?_, hres c, ?_, rfl⟩
  · intro hg
    rw [vector_push_back, if_pos hg, hres]
  · intro hg
    rw [vector_insert, if_pos hg, hres]
  · rw [vector_shrink_to_fit]
    split
    · rfl
    · rfl

/-- Claim C5: with a destructor set, clear invokes it exactly `elem_count`
times, once per live element in index order (the `j`-th call receives the
byte offset of element `j`), while reset and pop_back invoke it zero times. -/
theorem vector_clear_destructor_count (vec : Vector) (hd : vec.destructor = true) :
    ((vector_clear vec).2).length = vec.elem_count
  ∧ (∀ j, j < vec.elem_count → ((vector_clear vec).2).getD j 0 = j * vec.elem_size)
  ∧ (vector_reset vec).2 = []
  ∧ (vector_pop_back vec).2.2.2 = [] := by
  refine ⟨?_, ?_, rfl, rfl⟩
  · simp [vector_clear, hd, destructorSweep]
  · intro j hj
    simp only [vector_clear, hd, if_true, destructorSweep]
    rw [List.getD_eq_getElem _ _ (by simp; omega)]
    simp

/-- Claim C6: inserting `x` at a valid index `i` and then erasing at `i`
restores the original sequence of element byte blocks. -/
theorem vector_insert_erase_inverse (vec : Vector) (i : Nat) (x : List Nat)
    (hd : vec.destructor = false) (hi : i ≤ vec.elem_count)
    (hx : x.length = vec.elem_size) (hcap : 1 ≤ vec.capacity)
    (hle : vec.elem_count ≤ vec.capacity) :
    readElems ((vector_erase ((vector_insert vec i x true).1) i).1) = readElems vec := by
  obtain ⟨h1, h2, h3, h4, h5, -⟩ := insert_ok vec i x hx hi hcap hle
  obtain ⟨g1, -, -, -⟩ := erase_ok ((vector_insert vec i x true).1) i (by omega)
  rw [g1, h1]
  exact eraseAt_insertAt (readElems vec) i x (by rw [length_readElems]; omega)

/-- Claim C7: on a non-empty array, pop_back followed by push_back of the
popped bytes restores the length and the last element's bytes. -/
theorem vector_pop_push_duality (vec : Vector) (b : Bool)
    (h0 : 0 < vec.elem_count) (hle : vec.elem_count ≤ vec.capacity) :
    (vector_push_back (vector_pop_back vec).1 (vector_pop_back vec).2.1 b).1.elem_count
        = vec.elem_count
  ∧ elemBytes (vector_push_back (vector_pop_back vec).1 (vector_pop_back vec).2.1 b).1
        (vec.elem_count - 1)
      = elemBytes vec (vec.elem_count - 1) := by
  have hg : ¬((vector_pop_back vec).1.capacity ≤ (vector_pop_back vec).1.elem_count) := by
    simp only [vector_pop_back]
    omega
  constructor
  · rw [vector_push_back, if_neg hg]
    simp only [vector_pop_back]
    omega
  · rw [vector_push_back, if_neg hg]
    simp only [vector_pop_back, elemBytes]
    exact readBytes_writeBytes_self (readBytes_length _ _ _)

/-- Claim C8: a successful create coerces an initial capacity of 0 to 1 and
keeps any nonzero initial capacity as given, with size 0. -/
theorem vector_create_capacity (c es : Nat) (d : Bool) (v : Vector)
    (hes : 0 < es) (h : vector_init c es d true = some v) :
    vector_capacity v = (if c = 0 then 1 else c) ∧ vector_size v = 0 := by
  simp only [vector_init, if_pos, Option.some.injEq] at h
  subst h
  exact ⟨rfl, rfl⟩

/-- Claim C9: inserting at index `elem_count` (one past the end) produces
exactly the same resulting state as push_back, and succeeds exactly when
push_back does. -/
theorem vector_insert_at_end_is_push (vec : Vector) (x : List Nat) (b : Bool) :
    (vector_insert vec vec.elem_count x b).1 = (vector_push_back vec x b).1
  ∧ (vector_insert vec vec.elem_count x b).2.1 = (vector_push_back vec x b).2.1.isSome := by
  rcases hr : vector_reserve vec (vec.capacity * 2) b with ⟨v, r, dt⟩
  by_cases hg : vec.capacity ≤ vec.elem_count
  · simp only [vector_insert, vector_push_back, if_pos hg, hr]
    cases r
    · exact ⟨rfl, rfl⟩
    · have h1 := (reserve_preserves vec (vec.capacity * 2) b).2.1
      rw [hr] at h1
      simp only at h1
      refine ⟨?_, rfl⟩
      rw [← h1]
      simp [Nat.sub_self, writeBytes_zero]
  · simp only [vector_insert, vector_push_back, if_neg hg]
    refine ⟨?_, rfl⟩
    simp [Nat.sub_self, writeBytes_zero]

/-- Claim C10: on a non-empty array, pop_back returns `true`, decrements the
length by one, and leaves the capacity and the bytes of every remaining
element unchanged. -/
theorem vector_pop_back_frame (vec : Vector) (h : 0 < vec.elem_count) :
    (vector_pop_back vec).2.2.1 = true
  ∧ (vector_pop_back vec).1.elem_count = vec.elem_count - 1
  ∧ (vector_pop_back vec).1.capacity = vec.capacity
  ∧ ∀ j, j < vec.elem_count - 1 →
      elemBytes (vector_pop_back vec).1 j = elemBytes vec j := by
  exact ⟨rfl, rfl, rfl, fun j hj => rfl⟩

/-- Witness for the order-preservation theorem at a concrete creation and a
concrete operation sequence (two pushes, a growing insert, an erase). -/
theorem vector_order_preservation_witness :
    vector_init 2 1 false true = some vecEmpty2
  ∧ opsValid 1 0 opsDemo
  ∧ readElems (runOps vecEmpty2 opsDemo) = modelRun [] opsDemo :=
  ⟨rfl, by simp [opsDemo, opsValid],
   vector_order_preservation 2 1 false vecEmpty2 opsDemo rfl
     (by simp [opsDemo, opsValid])⟩

/-- Witness for the amended capacity theorem at concrete arrays. -/
theorem vector_capacity_positive_amended_witness :
    1 ≤ vecTwo.capacity
  ∧ vector_init 1 1 false true = some vecEmpty1
  ∧ 1 ≤ (vector_erase vecTwo 0).1.capacity :=
  ⟨by decide, rfl,
   (vector_capacity_positive_amended 1 1 5 0 false true true [9, 9] vecTwo vecEmpty1
     (by decide) rfl).2.2.2.2.1⟩

/-- Witness for the allocation-failure theorem: a full array's failed push
growth, and a non-full array's failed shrink reallocation and failed reserve
growth, each leave the array unchanged with an explicit failure result. -/
theorem vector_alloc_failure_no_mutation_witness :
    vector_push_back vecFull1 [3] false = (vecFull1, none, [])
  ∧ vector_shrink_to_fit vecEmpty1 false = (vecEmpty1, false, [])
  ∧ vector_reserve vecEmpty1 5 false = (vecEmpty1, false, []) :=
  ⟨(vector_alloc_failure_no_mutation vecFull1 [3] 0 0).1 (by decide),
   (vector_alloc_failure_no_mutation vecEmpty1 [] 0 5).2.2.2.1,
   (vector_alloc_failure_no_mutation vecEmpty1 [] 0 5).2.2.1⟩

/-- Witness for the destructor-count theorem at a concrete array with a
destructor. -/
theorem vector_clear_destructor_count_witness :
    vecTwo.destructor = true
  ∧ ((vector_clear vecTwo).2).length = vecTwo.elem_count :=
  ⟨rfl, (vector_clear_destructor_count vecTwo rfl).1⟩

/-- Witness for the insert/erase inverse theorem at a concrete array. -/
theorem vector_insert_erase_inverse_witness :
    vecTwoF.destructor = false
  ∧ 1 ≤ vecTwoF.elem_count
  ∧ readElems ((vector_erase ((vector_insert vecTwoF 1 [8, 9] true).1) 1).1)
      = readElems vecTwoF :=
  ⟨rfl, by decide,
   vector_insert_erase_inverse vecTwoF 1 [8, 9] rfl (by decide) rfl (by decide)
     (by decide)⟩

/-- Witness for the pop/push duality theorem at a concrete array. -/
theorem vector_pop_push_duality_witness :
    0 < vecTwo.elem_count
  ∧ (vector_push_back (vector_pop_back vecTwo).1 (vector_pop_back vecTwo).2.1
      true).1.elem_count = vecTwo.elem_count :=
  ⟨by decide, (vector_pop_push_duality vecTwo true (by decide) (by decide)).1⟩

/-- Witness for the creation theorem: creating with initial capacity 0 and
element size 4 yields capacity 1 and size 0. -/
theorem vector_create_capacity_witness :
    0 < 4
  ∧ vector_init 0 4 false true = some vecES4
  ∧ vector_capacity vecES4 = (if 0 = 0 then 1 else 0)
  ∧ vector_size vecES4 = 0 :=
  ⟨by decide, rfl,
   (vector_create_capacity 0 4 false vecES4 (by decide) rfl).1,
   (vector_create_capacity 0 4 false vecES4 (by decide) rfl).2⟩

/-- Witness for the pop_back frame theorem at a concrete array. -/
theorem vector_pop_back_frame_witness :
    0 < vecTwo.elem_count
  ∧ (vector_pop_back vecTwo).1.elem_count = vecTwo.elem_count - 1 :=
  ⟨by decide, (vector_pop_back_frame vecTwo (by decide)).2.1⟩
